import Mathlib

/-!
Verification of the structured-logging module `src/logging/logger.py`
(correlation-context store, log-event enrichment processors, and the
ASGI request-logging middleware) against its natural-language spec.

Modelling conventions for the shallow embedding:
* A Python log event dict is an association list `EventDict` with
  insertion-order semantics: assignment `d[k] = v` updates the entry in
  place when the key exists, otherwise appends.
* The `contextvars.ContextVar` named `correlation_id` is modelled as a
  one-field state record `CtxStore` threaded explicitly; its Python
  default is the empty string.  Functions that in Python may call
  `uuid4()` take an extra `entropy : Nat` argument standing for the
  128 random bits of that call; `uuidStr` renders them exactly as
  `str(uuid4())` does (8-4-4-4-12 lowercase hex groups).
* `datetime` values are records of calendar fields; `isoformat`
  reproduces Python `datetime.isoformat()` including the omission of
  the fractional part when `microsecond == 0`.
* ASGI byte strings (header names/values) are modelled as `String`
  (`.decode()` is the identity in the model).
-/

/-- Values stored in a log event dict: strings, ints (status codes),
and float durations kept abstractly as elapsed microseconds. -/
inductive LVal where
  | s (v : String)
  | n (v : Nat)
  | dur (micros : Int)
  deriving DecidableEq

/-- A Python dict of log-event fields, as an insertion-ordered association list. -/
abbrev EventDict : Type := List (String × LVal)

/-- Dict lookup `d[k]` (first entry with the key; keys are unique in a dict). -/
def getKey (d : EventDict) (k : String) : Option LVal :=
  (d.find? (fun p => p.1 = k)).map Prod.snd

/-- Dict assignment `d[k] = v`: replace in place when present, else append. -/
def setKey (d : EventDict) (k : String) (v : LVal) : EventDict :=
  if d.any (fun p => p.1 = k) then
    d.map (fun p => if p.1 = k then (k, v) else p)
  else d ++ [(k, v)]

theorem find?_map_replace (t : EventDict) (k : String) (v : LVal)
    (h : t.any (fun p => p.1 = k) = true) :
    (t.map (fun p => if p.1 = k then (k, v) else p)).find? (fun p => p.1 = k) = some (k, v) := by
  induction t with
  | nil => simp at h
  | cons p r ih =>
    by_cases hp : p.1 = k
    · simp [hp]
    · have hr : r.any (fun p => p.1 = k) = true := by
        simp only [List.any_cons, Bool.or_eq_true, decide_eq_true_eq] at h
        rcases h with hc | hr
        · exact absurd hc hp
        · exact hr
      simp only [List.map_cons, if_neg hp]
      rw [List.find?_cons_of_neg _ (by simp [hp])]
      exact ih hr

theorem find?_map_replace_other (t : EventDict) (k k2 : String) (v : LVal)
    (hne : k2 ≠ k) :
    ((t.map (fun p => if p.1 = k then (k, v) else p)).find? (fun p => p.1 = k2)).map Prod.snd
      = (t.find? (fun p => p.1 = k2)).map Prod.snd := by
  induction t with
  | nil => rfl
  | cons p r ih =>
    by_cases hp : p.1 = k
    · have h1 : ¬(k = k2) := fun h => hne h.symm
      have h2 : ¬(p.1 = k2) := by rw [hp]; exact h1
      simp only [List.map_cons, if_pos hp]
      rw [List.find?_cons_of_neg _ (by simp [h1]), List.find?_cons_of_neg _ (by simp [h2])]
      exact ih
    · by_cases hp2 : p.1 = k2
      · simp only [List.map_cons, if_neg hp]
        rw [List.find?_cons_of_pos _ (by simp [hp2]), List.find?_cons_of_pos _ (by simp [hp2])]
      · simp only [List.map_cons, if_neg hp]
        rw [List.find?_cons_of_neg _ (by simp [hp2]), List.find?_cons_of_neg _ (by simp [hp2])]
        exact ih

theorem getKey_setKey_self (d : EventDict) (k : String) (v : LVal) :
    getKey (setKey d k v) k = some v := by
  unfold setKey getKey
  by_cases h : d.any (fun p => p.1 = k) = true
  · rw [if_pos h, find?_map_replace d k v h]
    rfl
  · rw [if_neg h, List.find?_append]
    have hfind : d.find? (fun p => decide (p.1 = k)) = none := by
      rw [List.find?_eq_none]
      intro x hx
      simp only [decide_eq_true_eq]
      intro hk
      exact h (List.any_eq_true.mpr ⟨x, hx, by simp [hk]⟩)
    rw [hfind]
    simp

theorem getKey_setKey_other (d : EventDict) (k k2 : String) (v : LVal)
    (hne : k2 ≠ k) : getKey (setKey d k v) k2 = getKey d k2 := by
  unfold setKey getKey
  by_cases h : d.any (fun p => p.1 = k) = true
  · rw [if_pos h]
    exact find?_map_replace_other d k k2 v hne
  · rw [if_neg h, List.find?_append]
    have hone : List.find? (fun p => decide (p.1 = k2)) [(k, v)] = none := by
      have hk : ¬k = k2 := fun hh => hne hh.symm
      simp [hk]
    rw [hone]
    cases hd : d.find? (fun p => decide (p.1 = k2)) <;> simp [hd]

/-- Lowercase hex digit for a nibble, as CPython formats uuids. -/
def hexDigit (n : Nat) : Char :=
  if n < 10 then Char.ofNat (48 + n) else Char.ofNat (87 + n)

/-- Render exactly `w` hex digits of `n`, most significant first. -/
def hexPadAux : Nat → Nat → List Char → List Char
  | 0, _, acc => acc
  | w + 1, n, acc => hexPadAux w (n / 16) (hexDigit (n % 16) :: acc)

def hexPad (n w : Nat) : String := String.mk (hexPadAux w n [])

theorem hexPadAux_length (w : Nat) : ∀ n acc, (hexPadAux w n acc).length = w + acc.length := by
  induction w with
  | zero => intro n acc; simp [hexPadAux]
  | succ w ih =>
    intro n acc
    rw [hexPadAux, ih]
    simp
    omega

theorem hexPad_length (n w : Nat) : (hexPad n w).length = w := by
  simp [hexPad, String.length, hexPadAux_length]

/-- The string `str(uuid4())` when the 128 random bits are `r`:
8-4-4-4-12 lowercase hex groups separated by hyphens. -/
def uuidStr (r : Nat) : String :=
  let n := r % 2 ^ 128
  hexPad (n / 2 ^ 96) 8 ++ "-" ++ hexPad (n / 2 ^ 80 % 2 ^ 16) 4 ++ "-" ++
    hexPad (n / 2 ^ 64 % 2 ^ 16) 4 ++ "-" ++ hexPad (n / 2 ^ 48 % 2 ^ 16) 4 ++ "-" ++
    hexPad (n % 2 ^ 48) 12

theorem uuidStr_length (r : Nat) : (uuidStr r).length = 36 := by
  simp only [uuidStr, String.length_append, hexPad_length]
  rfl

theorem uuidStr_ne_empty (r : Nat) : uuidStr r ≠ "" := by
  intro h
  have := congrArg String.length h
  rw [uuidStr_length r] at this
  simp at this

/-- The process state of `correlation_id_var : ContextVar[str]`, default `""`. -/
structure CtxStore where
  correlation_id_var : String
  deriving DecidableEq

/-- Embeds `get_correlation_id`: `correlation_id_var.get() or str(uuid4())`.
Returns the value together with the (unchanged) store, so that absence of
side effects is part of the statement. -/
def get_correlation_id (st : CtxStore) (entropy : Nat) : String × CtxStore :=
  (if st.correlation_id_var = "" then uuidStr entropy else st.correlation_id_var, st)

/-- Embeds `set_correlation_id`: `cid = correlation_id or str(uuid4())`,
then `correlation_id_var.set(cid)`, returning `cid` with the new store.
Python truthiness: both `None` and `""` arguments trigger generation. -/
def set_correlation_id (correlation_id : Option String) (st : CtxStore) (entropy : Nat) :
    String × CtxStore :=
  let cid := match correlation_id with
    | none => uuidStr entropy
    | some v => if v = "" then uuidStr entropy else v
  (cid, { st with correlation_id_var := cid })

/-- Embeds processor `add_correlation_id`: fetch the id via
`get_correlation_id()` and, guarded by Python truthiness of the result,
assign `event_dict["correlation_id"] = cid`. -/
def add_correlation_id (st : CtxStore) (entropy : Nat) (event_dict : EventDict) : EventDict :=
  let cid := (get_correlation_id st entropy).1
  if cid ≠ "" then setKey event_dict "correlation_id" (LVal.s cid) else event_dict

/-- A `datetime.datetime` value (naive, as returned by `datetime.utcnow()`).
The constructor guarantees `0 ≤ microsecond < 10 ^ 6` and two-digit
time fields; theorems carry those bounds as hypotheses where needed. -/
structure PyDatetime where
  year : Nat
  month : Nat
  day : Nat
  hour : Nat
  minute : Nat
  second : Nat
  microsecond : Nat
  deriving DecidableEq

/-- Decimal digit character of `n % 10`. -/
def decDigit (n : Nat) : Char := Char.ofNat (48 + n % 10)

/-- Render exactly `w` decimal digits of `n`, most significant first
(Python `%0wd` for in-range values). -/
def decPadAux : Nat → Nat → List Char → List Char
  | 0, _, acc => acc
  | w + 1, n, acc => decPadAux w (n / 10) (decDigit n :: acc)

def decPad (n w : Nat) : String := String.mk (decPadAux w n [])

/-- Embeds `datetime.isoformat()`: `YYYY-MM-DDTHH:MM:SS` plus a
`.ffffff` fractional part that CPython omits entirely when
`microsecond == 0` and otherwise prints as six zero-padded digits. -/
def isoformat (t : PyDatetime) : String :=
  decPad t.year 4 ++ "-" ++ decPad t.month 2 ++ "-" ++ decPad t.day 2 ++ "T" ++
    decPad t.hour 2 ++ ":" ++ decPad t.minute 2 ++ ":" ++ decPad t.second 2 ++
    (if t.microsecond = 0 then "" else "." ++ decPad t.microsecond 6)

/-- The string injected by `add_timestamp`: `datetime.utcnow().isoformat() + "Z"`. -/
def timestampStr (t : PyDatetime) : String := isoformat t ++ "Z"

/-- Embeds processor `add_timestamp`: unconditionally assign
`event_dict["timestamp"] = datetime.utcnow().isoformat() + "Z"`. -/
def add_timestamp (now : PyDatetime) (event_dict : EventDict) : EventDict :=
  setKey event_dict "timestamp" (LVal.s (timestampStr now))

/-- Characters strictly after the first `.` of a string, if any. -/
def afterDot : List Char → Option (List Char)
  | [] => none
  | c :: rest => if c = '.' then some rest else afterDot rest

/-- Formalises "millisecond-or-finer precision": the string contains a
`.` followed by at least three decimal digits. -/
def millisecondOrFiner (s : String) : Bool :=
  match afterDot s.data with
  | none => false
  | some rest => 3 ≤ (rest.takeWhile Char.isDigit).length

theorem afterDot_append (l m : List Char) (h : '.' ∉ l) :
    afterDot (l ++ m) = afterDot m := by
  induction l with
  | nil => rfl
  | cons c r ih =>
    have hc : ¬(c = '.') := fun hh => h (hh ▸ List.mem_cons_self c r)
    simp only [List.cons_append, afterDot, if_neg hc]
    exact ih (fun hm => h (List.mem_cons_of_mem c hm))

theorem afterDot_of_not_mem (l : List Char) (h : '.' ∉ l) : afterDot l = none := by
  have := afterDot_append l [] h
  simpa using this

theorem decDigit_isDigit (n : Nat) : (decDigit n).isDigit = true := by
  unfold decDigit
  have h10 : n % 10 < 10 := Nat.mod_lt _ (by omega)
  set m := n % 10 with hm
  interval_cases m <;> decide

theorem decDigit_ne_dot (n : Nat) : decDigit n ≠ '.' := by
  intro h
  have := decDigit_isDigit n
  rw [h] at this
  simp at this

theorem mem_decPadAux (w : Nat) :
    ∀ n acc c, c ∈ decPadAux w n acc → c ∈ acc ∨ ∃ m, c = decDigit m := by
  induction w with
  | zero => intro n acc c hc; exact Or.inl hc
  | succ w ih =>
    intro n acc c hc
    rcases ih (n / 10) (decDigit n :: acc) c hc with hacc | hgen
    · rcases List.mem_cons.mp hacc with hd | hacc2
      · exact Or.inr ⟨n, hd⟩
      · exact Or.inl hacc2
    · exact Or.inr hgen

theorem dot_not_mem_decPad (n w : Nat) : '.' ∉ (decPad n w).data := by
  intro hmem
  rcases mem_decPadAux w n [] '.' hmem with hacc | ⟨m, hm⟩
  · simp at hacc
  · exact decDigit_ne_dot m hm.symm

theorem decPadAux_all_digits (w : Nat) :
    ∀ n acc, (∀ c ∈ acc, c.isDigit = true) →
      ∀ c ∈ decPadAux w n acc, c.isDigit = true := by
  induction w with
  | zero => intro n acc hacc c hc; exact hacc c hc
  | succ w ih =>
    intro n acc hacc c hc
    refine ih (n / 10) (decDigit n :: acc) ?_ c hc
    intro d hd
    rcases List.mem_cons.mp hd with hd1 | hd2
    · rw [hd1]; exact decDigit_isDigit n
    · exact hacc d hd2

theorem decPadAux_length (w : Nat) : ∀ n acc, (decPadAux w n acc).length = w + acc.length := by
  induction w with
  | zero => intro n acc; simp [decPadAux]
  | succ w ih =>
    intro n acc
    rw [decPadAux, ih]
    simp
    omega

/-- The stages that `configure_logging` can place in the structlog
processor chain, one constructor per processor object in the source. -/
inductive Processor where
  | mergeContextvars
  | addCorrelationId
  | addTimestamp
  | addLogLevel
  | addLoggerName
  | stackInfoRenderer
  | formatExcInfo
  | unicodeDecoder
  | jsonRenderer
  | consoleRenderer
  deriving DecidableEq

/-- Embeds the processor-list construction in `configure_logging`: the
fixed eight-stage list, then `append` of the renderer chosen by the
`json_logs` flag. -/
def configure_processors (json_logs : Bool) : List Processor :=
  let processors := [Processor.mergeContextvars, Processor.addCorrelationId,
    Processor.addTimestamp, Processor.addLogLevel, Processor.addLoggerName,
    Processor.stackInfoRenderer, Processor.formatExcInfo, Processor.unicodeDecoder]
  if json_logs then processors ++ [Processor.jsonRenderer]
  else processors ++ [Processor.consoleRenderer]

/-- An ASGI connection scope, restricted to the fields the middleware reads. -/
structure AsgiScope where
  type_ : String
  headers : List (String × String)
  method : String
  path : String
  query_string : String
  deriving DecidableEq

/-- An ASGI message passed to `send` (`status` is meaningful only for
`http.response.start` messages). -/
structure Message where
  type_ : String
  status : Nat
  deriving DecidableEq

/-- One execution of the wrapped handler `self.app`: the messages it
passes to the `send` callable it was given, in order, followed either by
a normal return (`exn = none`) or by raising an `Exception` whose
`str()` is `e` (`exn = some e`). -/
structure HandlerRun where
  messages : List Message
  exn : Option String
  deriving DecidableEq

/-- The observable outcome of one `LoggerMiddleware.__call__`: messages
forwarded to the original `send`, event dicts logged by the middleware
(in order, before enrichment), the exception propagated to the caller,
and the correlation-context store afterwards. -/
structure MwResult where
  sent : List Message
  logged : List EventDict
  raised : Option String
  ctx : CtxStore
  deriving DecidableEq

/-- Python `dict(pairs).get(k, dflt)`: the last pair with the key wins. -/
def dictGet (pairs : List (String × String)) (k dflt : String) : String :=
  ((pairs.reverse.find? (fun p => p.1 = k)).map Prod.snd).getD dflt

/-- The value of the `status_code` local after the handler run: starts at
500 and is overwritten by the `status` of every `http.response.start`
message seen by `send_wrapper`. -/
def finalStatus (messages : List Message) : Nat :=
  messages.foldl (fun st m => if m.type_ = "http.response.start" then m.status else st) 500

/-- Spec-side reformulation for comparison with `finalStatus`: the status
of the first `http.response.start` message, if any ("records the first
observed status code"). -/
def firstObservedStatus (messages : List Message) : Option Nat :=
  (messages.find? (fun m => m.type_ = "http.response.start")).map Message.status

/-- Spec-side reformulation: the status of the last `http.response.start`
message, defaulting to 500 when there is none. -/
def lastObservedStatus (messages : List Message) : Nat :=
  ((messages.reverse.find? (fun m => m.type_ = "http.response.start")).map Message.status).getD 500

theorem finalStatus_eq_lastObserved (messages : List Message) :
    finalStatus messages = lastObservedStatus messages := by
  suffices h : ∀ a, messages.foldl
      (fun st m => if m.type_ = "http.response.start" then m.status else st) a =
      ((messages.reverse.find? (fun m => m.type_ = "http.response.start")).map
        Message.status).getD a by
    exact h 500
  induction messages using List.reverseRecOn with
  | nil => intro a; rfl
  | append_singleton l m ih =>
    intro a
    rw [List.foldl_append, List.reverse_append]
    by_cases hm : m.type_ = "http.response.start"
    · simp only [List.foldl_cons, List.foldl_nil, if_pos hm]
      rw [List.reverse_cons]
      simp only [List.singleton_append, List.find?]
      rw [show (decide (m.type_ = "http.response.start")) = true by simp [hm]]
      rfl
    · simp only [List.foldl_cons, List.foldl_nil, if_neg hm]
      rw [List.reverse_cons]
      simp only [List.singleton_append, List.find?]
      rw [show (decide (m.type_ = "http.response.start")) = false by simp [hm]]
      exact ih a

/-- The `request_started` event dict logged before delegating. -/
def startEvent (scope : AsgiScope) : EventDict :=
  [("event", LVal.s "request_started"), ("method", LVal.s scope.method),
    ("path", LVal.s scope.path), ("query", LVal.s scope.query_string)]

/-- The `request_error` event dict logged in the `except Exception` clause. -/
def errorEvent (e : String) : EventDict :=
  [("event", LVal.s "request_error"), ("error", LVal.s e)]

/-- The `request_completed` event dict logged in the `finally` clause. -/
def completionEvent (scope : AsgiScope) (status_code : Nat) (durMicros : Int) : EventDict :=
  [("event", LVal.s "request_completed"), ("method", LVal.s scope.method),
    ("path", LVal.s scope.path), ("status_code", LVal.n status_code),
    ("duration_seconds", LVal.dur durMicros)]

/-- Embeds `LoggerMiddleware.__call__` for one request.  `run` is the
behaviour of the wrapped `self.app` on this request; `startT`/`endT` are
the two `datetime.utcnow()` readings as epoch microseconds; `entropy`
stands for the random bits of the `uuid4()` call used when no inbound
header value is available.  Non-`"http"` scopes pass straight through
(no logging, no context change); otherwise the middleware extracts or
generates a correlation id, binds it, logs `request_started`, runs the
handler with `send_wrapper` (which records the status of each
`http.response.start` and forwards every message unchanged), logs
`request_error` and re-raises if the handler raised, and always logs
`request_completed` from the `finally` clause. -/
def middleware_call (scope : AsgiScope) (run : HandlerRun) (st : CtxStore)
    (entropy : Nat) (startT endT : Int) : MwResult :=
  if scope.type_ ≠ "http" then
    { sent := run.messages, logged := [], raised := run.exn, ctx := st }
  else
    let headerValue := dictGet scope.headers "x-correlation-id" ""
    let correlation_id := if headerValue = "" then uuidStr entropy else headerValue
    let st1 := (set_correlation_id (some correlation_id) st entropy).2
    let status_code := finalStatus run.messages
    let errEvents := match run.exn with
      | some e => [errorEvent e]
      | none => []
    { sent := run.messages,
      logged := [startEvent scope] ++ errEvents ++
        [completionEvent scope status_code (endT - startT)],
      raised := run.exn,
      ctx := st1 }

/-- Number of logged events whose `event` field is the given name. -/
def countEvents (events : List EventDict) (name : String) : Nat :=
  (events.filter (fun ev => getKey ev "event" = some (LVal.s name))).length

theorem get_cid_ne_empty (st : CtxStore) (entropy : Nat) :
    (get_correlation_id st entropy).1 ≠ "" := by
  by_cases h : st.correlation_id_var = "" <;>
    simp [get_correlation_id, h, uuidStr_ne_empty]

theorem add_correlation_id_eq_setKey (st : CtxStore) (entropy : Nat) (ev : EventDict) :
    add_correlation_id st entropy ev
      = setKey ev "correlation_id" (LVal.s (get_correlation_id st entropy).1) := by
  simp [add_correlation_id, get_cid_ne_empty st entropy]

theorem add_correlation_id_of_bound (st : CtxStore) (entropy : Nat) (ev : EventDict)
    (c : String) (hc : st.correlation_id_var = c) (hcne : c ≠ "") :
    getKey (add_correlation_id st entropy ev) "correlation_id" = some (LVal.s c) := by
  have hget : (get_correlation_id st entropy).1 = c := by
    simp [get_correlation_id, hc, hcne]
  rw [add_correlation_id_eq_setKey, hget]
  exact getKey_setKey_self ev "correlation_id" (LVal.s c)

/-- C3: `get_correlation_id` never fails and never returns `""`; it
returns the bound id when one is bound, and otherwise a freshly
generated uuid string, leaving the context store unchanged in every
case (no side effect on the store). -/
theorem get_correlation_id_total_pure_nonempty (st : CtxStore) (entropy : Nat) :
    (get_correlation_id st entropy).2 = st ∧
    (get_correlation_id st entropy).1 ≠ "" ∧
    (st.correlation_id_var ≠ "" →
      (get_correlation_id st entropy).1 = st.correlation_id_var) ∧
    (st.correlation_id_var = "" →
      (get_correlation_id st entropy).1 = uuidStr entropy) := by
  refine ⟨rfl, get_cid_ne_empty st entropy, ?_, ?_⟩
  · intro h
    simp [get_correlation_id, h]
  · intro h
    simp [get_correlation_id, h]

theorem get_correlation_id_total_pure_nonempty_witness :
    (get_correlation_id ⟨"abc"⟩ 0).1 = "abc" ∧ (get_correlation_id ⟨""⟩ 0).1 = uuidStr 0 :=
  ⟨(get_correlation_id_total_pure_nonempty ⟨"abc"⟩ 0).2.2.1 (by decide),
    (get_correlation_id_total_pure_nonempty ⟨""⟩ 0).2.2.2 rfl⟩

/-- C4: `set_correlation_id` binds and returns: with a non-empty
argument `v` it binds `v` and returns `v`, and every later
`get_correlation_id` in that context returns `v`; with `None` or `""`
it binds and returns a fresh non-empty generated id. -/
theorem set_correlation_id_binds_and_returns (st : CtxStore) (e1 e2 : Nat) (v : String)
    (hv : v ≠ "") :
    (set_correlation_id (some v) st e1).1 = v ∧
    (set_correlation_id (some v) st e1).2.correlation_id_var = v ∧
    (get_correlation_id (set_correlation_id (some v) st e1).2 e2).1 = v ∧
    (set_correlation_id none st e1).1 = uuidStr e1 ∧
    (set_correlation_id (some "") st e1).1 = uuidStr e1 ∧
    (set_correlation_id none st e1).1 ≠ "" ∧
    (get_correlation_id (set_correlation_id none st e1).2 e2).1 = uuidStr e1 := by
  refine ⟨by simp [set_correlation_id, hv], by simp [set_correlation_id, hv], ?_,
    rfl, by simp [set_correlation_id], uuidStr_ne_empty e1, ?_⟩
  · simp [set_correlation_id, get_correlation_id, hv]
  · simp [set_correlation_id, get_correlation_id, uuidStr_ne_empty e1]

theorem set_correlation_id_binds_and_returns_witness :
    (set_correlation_id (some "abc") ⟨""⟩ 0).1 = "abc" ∧
    (get_correlation_id (set_correlation_id (some "abc") ⟨""⟩ 0).2 7).1 = "abc" :=
  ⟨(set_correlation_id_binds_and_returns ⟨""⟩ 0 7 "abc" (by decide)).1,
    (set_correlation_id_binds_and_returns ⟨""⟩ 0 7 "abc" (by decide)).2.2.1⟩

/-- C10: the truthiness guard in `add_correlation_id` is never false:
the fetched id is always non-empty, the skip branch is unreachable (the
call always reduces to the assignment), and the enriched event always
contains a `correlation_id` key. -/
theorem add_correlation_id_always_injects (st : CtxStore) (entropy : Nat) (ev : EventDict) :
    (get_correlation_id st entropy).1 ≠ "" ∧
    add_correlation_id st entropy ev
      = setKey ev "correlation_id" (LVal.s (get_correlation_id st entropy).1) ∧
    getKey (add_correlation_id st entropy ev) "correlation_id" ≠ none := by
  refine ⟨get_cid_ne_empty st entropy, add_correlation_id_eq_setKey st entropy ev, ?_⟩
  rw [add_correlation_id_eq_setKey, getKey_setKey_self]
  simp

/-- C5 counterexample: both enrichment processors overwrite
caller-supplied values stored under their keys, so caller-provided
values do not take precedence. -/
theorem enrichment_overwrites_caller_fields_cex :
    getKey (add_correlation_id ⟨"bound-id"⟩ 0
        [("event", LVal.s "m"), ("correlation_id", LVal.s "caller-id")]) "correlation_id"
      = some (LVal.s "bound-id") ∧
    getKey (add_timestamp ⟨2024, 1, 1, 0, 0, 0, 0⟩
        [("event", LVal.s "m"), ("timestamp", LVal.s "caller-ts")]) "timestamp"
      = some (LVal.s "2024-01-01T00:00:00Z") ∧
    ("bound-id" : String) ≠ "caller-id" ∧
    ("2024-01-01T00:00:00Z" : String) ≠ "caller-ts" := by
  decide

/-- C5 amended: the enrichment processors `add_correlation_id` and
`add_timestamp` unconditionally assign their keys, so the
pipeline-injected value — not the caller-supplied one — is the value
present under `correlation_id` and `timestamp` in the enriched event. -/
theorem enrichment_injected_values_take_precedence (st : CtxStore) (entropy : Nat)
    (now : PyDatetime) (ev : EventDict) :
    getKey (add_correlation_id st entropy ev) "correlation_id"
      = some (LVal.s (get_correlation_id st entropy).1) ∧
    getKey (add_timestamp now ev) "timestamp" = some (LVal.s (timestampStr now)) := by
  constructor
  · rw [add_correlation_id_eq_setKey]
    exact getKey_setKey_self ev "correlation_id" _
  · exact getKey_setKey_self ev "timestamp" _

/-- C8: the processor chain built by `configure_logging` is exactly
context-merge, correlation-id injection, timestamp injection, level
injection, logger-name injection, stack-info rendering, exception-info
formatting, unicode decoding, and then the renderer selected once from
the `json_logs` configuration flag (JSON when true, console otherwise);
the non-renderer prefix does not depend on the flag. -/
theorem processor_chain_order (json_logs : Bool) :
    configure_processors json_logs
      = [Processor.mergeContextvars, Processor.addCorrelationId, Processor.addTimestamp,
          Processor.addLogLevel, Processor.addLoggerName, Processor.stackInfoRenderer,
          Processor.formatExcInfo, Processor.unicodeDecoder,
          if json_logs then Processor.jsonRenderer else Processor.consoleRenderer] ∧
    (configure_processors true).dropLast = (configure_processors false).dropLast := by
  cases json_logs <;> exact ⟨rfl, rfl⟩

theorem lastObservedStatus_of_no_start (messages : List Message)
    (h : ∀ m ∈ messages, m.type_ ≠ "http.response.start") :
    lastObservedStatus messages = 500 := by
  unfold lastObservedStatus
  rw [List.find?_eq_none.mpr]
  · rfl
  · intro m hm
    simp [h m (List.mem_reverse.mp hm)]

/-- C1: for every request with an `"http"` scope, whatever the handler
does (returns normally or raises), the middleware logs exactly one
`request_started` event and exactly one `request_completed` event; the
completion event is emitted on both exit paths via the `finally` clause. -/
theorem middleware_logs_one_start_one_completion (scope : AsgiScope) (run : HandlerRun)
    (st : CtxStore) (entropy : Nat) (startT endT : Int) (h : scope.type_ = "http") :
    countEvents (middleware_call scope run st entropy startT endT).logged
        "request_started" = 1 ∧
    countEvents (middleware_call scope run st entropy startT endT).logged
        "request_completed" = 1 := by
  cases hexn : run.exn with
  | none =>
    simp [middleware_call, h, hexn, countEvents, startEvent, errorEvent,
      completionEvent, getKey, List.find?, List.filter]
  | some e =>
    simp [middleware_call, h, hexn, countEvents, startEvent, errorEvent,
      completionEvent, getKey, List.find?, List.filter]

theorem middleware_logs_one_start_one_completion_witness :
    countEvents (middleware_call ⟨"http", [], "GET", "/", ""⟩ ⟨[], some "boom"⟩ ⟨""⟩ 0 0 0).logged
        "request_started" = 1 ∧
    countEvents (middleware_call ⟨"http", [], "GET", "/", ""⟩ ⟨[], some "boom"⟩ ⟨""⟩ 0 0 0).logged
        "request_completed" = 1 :=
  middleware_logs_one_start_one_completion ⟨"http", [], "GET", "/", ""⟩ ⟨[], some "boom"⟩
    ⟨""⟩ 0 0 0 rfl

/-- C2 counterexample: when the handler emits two `http.response.start`
messages (statuses 200 then 404), the completion event records 404 —
the last observed status — not the first observed status 200, so the
claim's "equals the first observed status code" fails as stated. -/
theorem completion_status_not_first_observed_cex :
    firstObservedStatus [⟨"http.response.start", 200⟩, ⟨"http.response.start", 404⟩]
      = some 200 ∧
    getKey ((middleware_call ⟨"http", [], "GET", "/", ""⟩
        ⟨[⟨"http.response.start", 200⟩, ⟨"http.response.start", 404⟩], none⟩
        ⟨""⟩ 0 0 0).logged.getLastD []) "status_code" = some (LVal.n 404) ∧
    LVal.n 404 ≠ LVal.n 200 := by
  decide

/-- C2 amended: the completion event's `status_code` is 500 when the
handler raises having emitted no `http.response.start` message, and
otherwise is the status of the LAST observed `http.response.start`
message (which coincides with the first in any protocol-conforming
exchange, where at most one such message occurs); the wrapper forwards
every message to the original `send` unchanged and in order. -/
theorem completion_status_is_last_observed (scope : AsgiScope) (run : HandlerRun)
    (st : CtxStore) (entropy : Nat) (startT endT : Int) (h : scope.type_ = "http") :
    (middleware_call scope run st entropy startT endT).sent = run.messages ∧
    getKey ((middleware_call scope run st entropy startT endT).logged.getLastD [])
        "status_code" = some (LVal.n (lastObservedStatus run.messages)) ∧
    ((∀ m ∈ run.messages, m.type_ ≠ "http.response.start") →
      getKey ((middleware_call scope run st entropy startT endT).logged.getLastD [])
        "status_code" = some (LVal.n 500)) := by
  have hsent : (middleware_call scope run st entropy startT endT).sent = run.messages := by
    cases hexn : run.exn <;> simp [middleware_call, h, hexn]
  have hstatus : getKey ((middleware_call scope run st entropy startT endT).logged.getLastD [])
      "status_code" = some (LVal.n (lastObservedStatus run.messages)) := by
    rw [← finalStatus_eq_lastObserved]
    cases hexn : run.exn with
    | none =>
      simp [middleware_call, h, hexn, completionEvent, getKey, List.find?]
    | some e =>
      simp [middleware_call, h, hexn, completionEvent, getKey, List.find?]
  refine ⟨hsent, hstatus, ?_⟩
  intro hnone
  rw [hstatus, lastObservedStatus_of_no_start run.messages hnone]

theorem completion_status_is_last_observed_witness :
    getKey ((middleware_call ⟨"http", [], "GET", "/", ""⟩
        ⟨[⟨"http.response.body", 0⟩], some "boom"⟩ ⟨""⟩ 0 0 0).logged.getLastD [])
      "status_code" = some (LVal.n 500) :=
  (completion_status_is_last_observed ⟨"http", [], "GET", "/", ""⟩
      ⟨[⟨"http.response.body", 0⟩], some "boom"⟩ ⟨""⟩ 0 0 0 rfl).2.2
    (by decide)

/-- C7: when the handler raises, the middleware logs a `request_error`
event whose `error` field is the exception's string representation,
placed between the start and completion events, and propagates the same
exception to its caller (the `raised` outcome equals the handler's
exception, unchanged). -/
theorem middleware_logs_error_and_reraises (scope : AsgiScope) (run : HandlerRun)
    (st : CtxStore) (entropy : Nat) (startT endT : Int) (e : String)
    (h : scope.type_ = "http") (hexn : run.exn = some e) :
    (middleware_call scope run st entropy startT endT).raised = some e ∧
    (middleware_call scope run st entropy startT endT).raised = run.exn ∧
    (middleware_call scope run st entropy startT endT).logged
      = [startEvent scope, errorEvent e,
          completionEvent scope (finalStatus run.messages) (endT - startT)] ∧
    getKey (errorEvent e) "event" = some (LVal.s "request_error") ∧
    getKey (errorEvent e) "error" = some (LVal.s e) := by
  refine ⟨?_, ?_, ?_, ?_, ?_⟩
  · simp [middleware_call, h, hexn]
  · simp [middleware_call, h, hexn]
  · simp [middleware_call, h, hexn]
  · simp [errorEvent, getKey, List.find?]
  · simp [errorEvent, getKey, List.find?]

theorem middleware_logs_error_and_reraises_witness :
    (middleware_call ⟨"http", [], "GET", "/", ""⟩ ⟨[], some "boom"⟩ ⟨""⟩ 0 0 0).raised
      = some "boom" ∧
    getKey (errorEvent "boom") "error" = some (LVal.s "boom") :=
  ⟨(middleware_logs_error_and_reraises ⟨"http", [], "GET", "/", ""⟩ ⟨[], some "boom"⟩
      ⟨""⟩ 0 0 0 "boom" rfl rfl).1,
    (middleware_logs_error_and_reraises ⟨"http", [], "GET", "/", ""⟩ ⟨[], some "boom"⟩
      ⟨""⟩ 0 0 0 "boom" rfl rfl).2.2.2.2⟩

/-- C6 counterexample: the header lookup is an exact byte-wise dict
lookup of `b"x-correlation-id"`, not a case-insensitive match: a scope
carrying the header under the spelling `X-Correlation-Id` with
non-empty value `abc-123` is not matched, and a fresh uuid is bound
instead of the header value. -/
theorem header_lookup_case_sensitive_cex :
    (middleware_call ⟨"http", [("X-Correlation-Id", "abc-123")], "GET", "/", ""⟩
        ⟨[], none⟩ ⟨""⟩ 0 0 0).ctx.correlation_id_var
      = "00000000-0000-0000-0000-000000000000" ∧
    ("00000000-0000-0000-0000-000000000000" : String) ≠ "abc-123" := by
  decide

/-- C6 amended: the inbound header is matched by exact lookup of the
lowercase name `x-correlation-id` (ASGI servers normalise header names
to lowercase; the middleware itself is case-sensitive).  When that
lookup yields a non-empty value, the middleware binds it as the
request's correlation id and every event enriched by
`add_correlation_id` under the request's context carries exactly that
value; when the header is absent or empty, a fresh generated id is
bound instead and every enriched event carries the generated id. -/
theorem middleware_binds_header_correlation_id (scope : AsgiScope) (run : HandlerRun)
    (st : CtxStore) (entropy e2 : Nat) (startT endT : Int)
    (h : scope.type_ = "http") :
    (dictGet scope.headers "x-correlation-id" "" ≠ "" →
      (middleware_call scope run st entropy startT endT).ctx.correlation_id_var
        = dictGet scope.headers "x-correlation-id" "" ∧
      ∀ ev : EventDict,
        getKey (add_correlation_id
            (middleware_call scope run st entropy startT endT).ctx e2 ev) "correlation_id"
          = some (LVal.s (dictGet scope.headers "x-correlation-id" ""))) ∧
    (dictGet scope.headers "x-correlation-id" "" = "" →
      (middleware_call scope run st entropy startT endT).ctx.correlation_id_var
        = uuidStr entropy ∧
      ∀ ev : EventDict,
        getKey (add_correlation_id
            (middleware_call scope run st entropy startT endT).ctx e2 ev) "correlation_id"
          = some (LVal.s (uuidStr entropy))) := by
  constructor
  · intro hne
    have hctx : (middleware_call scope run st entropy startT endT).ctx.correlation_id_var
        = dictGet scope.headers "x-correlation-id" "" := by
      simp [middleware_call, h, hne, set_correlation_id]
    exact ⟨hctx, fun ev => add_correlation_id_of_bound _ e2 ev _ hctx hne⟩
  · intro hemp
    have hctx : (middleware_call scope run st entropy startT endT).ctx.correlation_id_var
        = uuidStr entropy := by
      simp [middleware_call, h, hemp, set_correlation_id, uuidStr_ne_empty]
    exact ⟨hctx, fun ev =>
      add_correlation_id_of_bound _ e2 ev _ hctx (uuidStr_ne_empty entropy)⟩

theorem middleware_binds_header_correlation_id_witness :
    (middleware_call ⟨"http", [("x-correlation-id", "abc-123")], "GET", "/", ""⟩
        ⟨[], none⟩ ⟨""⟩ 0 0 0).ctx.correlation_id_var = "abc-123" ∧
    getKey (add_correlation_id
        (middleware_call ⟨"http", [("x-correlation-id", "abc-123")], "GET", "/", ""⟩
          ⟨[], none⟩ ⟨""⟩ 0 0 0).ctx 5 [("event", LVal.s "app_log")]) "correlation_id"
      = some (LVal.s "abc-123") := by
  have h := (middleware_binds_header_correlation_id
      ⟨"http", [("x-correlation-id", "abc-123")], "GET", "/", ""⟩
      ⟨[], none⟩ ⟨""⟩ 0 5 0 0 rfl).1 (by decide)
  have hv : dictGet [("x-correlation-id", "abc-123")] "x-correlation-id" "" = "abc-123" := by
    decide
  exact ⟨hv ▸ h.1, hv ▸ h.2 [("event", LVal.s "app_log")]⟩

theorem dot_not_mem_append (s1 s2 : String) (h1 : '.' ∉ s1.data) (h2 : '.' ∉ s2.data) :
    '.' ∉ (s1 ++ s2).data := by
  intro hm
  rw [String.data_append] at hm
  rcases List.mem_append.mp hm with hl | hr
  · exact h1 hl
  · exact h2 hr

/-- The date-time prefix of `isoformat` (everything before the optional
fractional part) contains no dot, whatever the field values. -/
theorem dot_not_mem_datePrefix (t : PyDatetime) :
    '.' ∉ (decPad t.year 4 ++ "-" ++ decPad t.month 2 ++ "-" ++ decPad t.day 2 ++ "T" ++
      decPad t.hour 2 ++ ":" ++ decPad t.minute 2 ++ ":" ++ decPad t.second 2).data := by
  have h1 := dot_not_mem_append (decPad t.year 4) "-" (dot_not_mem_decPad _ _) (by decide)
  have h2 := dot_not_mem_append _ (decPad t.month 2) h1 (dot_not_mem_decPad _ _)
  have h3 := dot_not_mem_append _ "-" h2 (by decide)
  have h4 := dot_not_mem_append _ (decPad t.day 2) h3 (dot_not_mem_decPad _ _)
  have h5 := dot_not_mem_append _ "T" h4 (by decide)
  have h6 := dot_not_mem_append _ (decPad t.hour 2) h5 (dot_not_mem_decPad _ _)
  have h7 := dot_not_mem_append _ ":" h6 (by decide)
  have h8 := dot_not_mem_append _ (decPad t.minute 2) h7 (dot_not_mem_decPad _ _)
  have h9 := dot_not_mem_append _ ":" h8 (by decide)
  exact dot_not_mem_append _ (decPad t.second 2) h9 (dot_not_mem_decPad _ _)

theorem takeWhile_length_ge (p : Char → Bool) (l m : List Char)
    (h : ∀ c ∈ l, p c = true) :
    l.length ≤ ((l ++ m).takeWhile p).length := by
  induction l with
  | nil => simp
  | cons c r ih =>
    rw [List.cons_append, List.takeWhile_cons, h c (List.mem_cons_self c r)]
    simp only [if_true, List.length_cons]
    have := ih (fun d hd => h d (List.mem_cons_of_mem c hd))
    omega

theorem decPad_data_digits (n w : Nat) : ∀ c ∈ (decPad n w).data, c.isDigit = true :=
  decPadAux_all_digits w n [] (by intro c hc; simp at hc)

theorem decPad_data_length (n w : Nat) : (decPad n w).data.length = w := by
  show (decPadAux w n []).length = w
  rw [decPadAux_length]
  rfl

/-- C9 counterexample: at an emission time whose sub-second component is
exactly zero, the injected timestamp has no fractional digits at all —
CPython omits the fraction — so millisecond-or-finer precision fails
for that emission time (the trailing `Z` is still present). -/
theorem timestamp_zero_microsecond_cex :
    getKey (add_timestamp ⟨2024, 1, 1, 0, 0, 0, 0⟩ [("event", LVal.s "m")]) "timestamp"
      = some (LVal.s "2024-01-01T00:00:00Z") ∧
    millisecondOrFiner "2024-01-01T00:00:00Z" = false ∧
    millisecondOrFiner "2024-01-01T00:00:00.123456Z" = true := by
  decide

/-- C9 amended: the injected timestamp is `isoformat` plus a trailing
`Z`, and its precision depends on the emission time: whenever the
sub-second component is non-zero the string carries at least six
fractional digits (millisecond-or-finer holds), but when the
sub-second component is exactly zero the string contains no fractional
part at all (second precision only). -/
theorem timestamp_trailing_z_and_precision (now : PyDatetime) (ev : EventDict) :
    getKey (add_timestamp now ev) "timestamp" = some (LVal.s (timestampStr now)) ∧
    (timestampStr now).data.getLast? = some 'Z' ∧
    (now.microsecond ≠ 0 → millisecondOrFiner (timestampStr now) = true) ∧
    (now.microsecond = 0 → afterDot (timestampStr now).data = none) := by
  refine ⟨getKey_setKey_self ev "timestamp" _, ?_, ?_, ?_⟩
  · show ((isoformat now ++ "Z").data).getLast? = some 'Z'
    rw [String.data_append]
    exact List.getLast?_concat _
  · intro hm
    have hdot : afterDot (timestampStr now).data
        = some ((decPad now.microsecond 6).data ++ "Z".data) := by
      unfold timestampStr isoformat
      rw [if_neg hm]
      simp only [String.data_append, List.append_assoc]
      rw [afterDot_append _ _ (dot_not_mem_decPad _ _),
        afterDot_append _ _ (by decide),
        afterDot_append _ _ (dot_not_mem_decPad _ _),
        afterDot_append _ _ (by decide),
        afterDot_append _ _ (dot_not_mem_decPad _ _),
        afterDot_append _ _ (by decide),
        afterDot_append _ _ (dot_not_mem_decPad _ _),
        afterDot_append _ _ (by decide),
        afterDot_append _ _ (dot_not_mem_decPad _ _),
        afterDot_append _ _ (by decide),
        afterDot_append _ _ (dot_not_mem_decPad _ _)]
      rfl
    unfold millisecondOrFiner
    rw [hdot]
    show decide (3 ≤ (((decPad now.microsecond 6).data ++ "Z".data).takeWhile
      Char.isDigit).length) = true
    rw [decide_eq_true_eq]
    have hlen := takeWhile_length_ge Char.isDigit (decPad now.microsecond 6).data "Z".data
      (decPad_data_digits now.microsecond 6)
    rw [decPad_data_length] at hlen
    omega
  · intro hz
    unfold timestampStr isoformat
    rw [if_pos hz]
    simp only [String.data_append, List.append_assoc]
    rw [afterDot_append _ _ (dot_not_mem_decPad _ _),
      afterDot_append _ _ (by decide),
      afterDot_append _ _ (dot_not_mem_decPad _ _),
      afterDot_append _ _ (by decide),
      afterDot_append _ _ (dot_not_mem_decPad _ _),
      afterDot_append _ _ (by decide),
      afterDot_append _ _ (dot_not_mem_decPad _ _),
      afterDot_append _ _ (by decide),
      afterDot_append _ _ (dot_not_mem_decPad _ _),
      afterDot_append _ _ (by decide),
      afterDot_append _ _ (dot_not_mem_decPad _ _)]
    decide

theorem timestamp_trailing_z_and_precision_witness :
    millisecondOrFiner (timestampStr ⟨2024, 3, 5, 12, 34, 56, 789000⟩) = true ∧
    afterDot (timestampStr ⟨2024, 1, 1, 0, 0, 0, 0⟩).data = none :=
  ⟨(timestamp_trailing_z_and_precision ⟨2024, 3, 5, 12, 34, 56, 789000⟩ []).2.2.1
      (by decide),
    (timestamp_trailing_z_and_precision ⟨2024, 1, 1, 0, 0, 0, 0⟩ []).2.2.2 rfl⟩
